import Mathlib

/-!
A shallow embedding of the grpc-haclient connection manager (`connmgr.go`)
and of the `haclient` lifecycle built on top of it, together with theorems
checking the claims of the specification against the embedded code.

Modelling conventions:

* A `*grpc.ClientConn` is an opaque handle, modelled as `Conn := Nat`;
  the `nil` pointer is `Option.none`.  `Close()` on a handle is recorded as
  an event in an explicit list of closed handles.
* The Go map `connSet` is an association list with Go map semantics:
  insertion updates the entry in place when the key is present, otherwise
  appends.  A key stored with a `nil` value reads back exactly like an
  absent key (both give `none`), matching the zero-value
  semantics of `m.connSet[endpoint]`.
* The `int32` field `lastRoundRobinIdx` is an `Int` kept inside int32
  range; `atomic.AddInt32(&idx, 1)` is `wrap32 (idx + 1)` (signed wrap-around
  modulo 2^32).  The Go `%` on `int32` is truncated division, i.e.
  `Int.tmod`, whose result is negative for a negative dividend; indexing a
  slice with a negative index is a Go runtime panic, modelled by the
  distinguished result `crash`.  The conversion `int32(len(m.endpoints))`
  is modelled as `Int.ofNat` of the length, exact for every list of length
  below 2^31 (all lists considered here).
* The unbounded `for` loop of `RoundRobinConn` is modelled with explicit
  fuel; running out of fuel is the distinguished result `spin`, so a
  theorem producing `ok`/`noConn` at a given fuel shows the Go loop
  terminates within that many probes of `roundRobin`.
-/

namespace GrpcHaclient

/-- Opaque handle standing for one `*grpc.ClientConn` value. -/
abbrev Conn := Nat

/-- The Go map `map[string]*grpc.ClientConn` as an association list. -/
abbrev ConnMap := List (String × Option Conn)

/-- Go map read `m.connSet[endpoint]`: the stored value when the key is
present, `nil` (`none`) otherwise. -/
def mapLookup : ConnMap → String → Option Conn
  | [], _ => none
  | (k, w) :: rest, e => if k = e then w else mapLookup rest e

/-- Go map write `m.connSet[endpoint] = cc`: update in place when the key is
present, otherwise add the binding. -/
def mapInsert : ConnMap → String → Option Conn → ConnMap
  | [], e, v => [(e, v)]
  | (k, w) :: rest, e, v =>
    if k = e then (k, v) :: rest else (k, w) :: mapInsert rest e v

/-- The non-`nil` values currently stored in the map (the connections the
registry holds live). -/
def mapVals (cs : ConnMap) : List Conn := cs.filterMap (fun p => p.2)

/-- State of `clientConnManager` (connmgr.go): the endpoint-to-connection
map, the endpoint slice, and the `int32` round-robin cursor. -/
structure ConnManager where
  connSet : ConnMap
  endpoints : List String
  lastRoundRobinIdx : Int
deriving DecidableEq, Repr

/-- `newClientConnManager()`: empty map, empty slice, cursor `-1`. -/
def newClientConnManager : ConnManager :=
  { connSet := [], endpoints := [], lastRoundRobinIdx := -1 }

/-- The Go byte-wise lexicographic `<=` on strings, as a comparison on the
character lists (UTF-8 byte order coincides with code-point order, so
comparing code points is exactly the Go byte comparison). -/
def charListLe : List Char → List Char → Bool
  | [], _ => true
  | _ :: _, [] => false
  | a :: as, b :: bs =>
    if a.toNat < b.toNat then true
    else if b.toNat < a.toNat then false
    else charListLe as bs

/-- The Go string order `a <= b`, the order used by `sort.Strings`. -/
def strLe (a b : String) : Prop := charListLe a.data b.data = true

instance : DecidableRel strLe := fun a b =>
  inferInstanceAs (Decidable (charListLe a.data b.data = true))

/-- The scan inside `ResetConn`:
`for ; idx < len(m.endpoints); idx++ { if m.endpoints[idx] == endpoint { continue } }`,
walking the remaining elements of the slice while advancing `idx`.
`continue` merely starts the next iteration, and a non-matching element
also falls through to the next iteration, so both branches advance `idx`;
the loop can only stop by running past the end of the slice. -/
def dedupScanGo (e : String) : List String → Nat → Nat
  | [], idx => idx
  | x :: rest, idx =>
    if x = e then dedupScanGo e rest (idx + 1)
    else dedupScanGo e rest (idx + 1)

/-- The scan of `ResetConn` started at index `0`. -/
def dedupScan (l : List String) (e : String) : Nat :=
  dedupScanGo e l 0

/-- `sort.Strings`: sort the slice ascending by the Go string order (for
strings, any sorted permutation is the same list, so a stable insertion
sort is an exact model). -/
def sortStrings (l : List String) : List String :=
  List.insertionSort strLe l

/-- `ResetConn(endpoint, cc)`: close the previously stored connection when
it is non-`nil`, store `cc`, then run the (ineffective) duplicate scan,
append `endpoint` when the scan index reached the length, and re-sort.
Returns the new state together with the list of handles closed by this
call. -/
def ResetConn (m : ConnManager) (endpoint : String) (cc : Option Conn) :
    ConnManager × List Conn :=
  let closes : List Conn :=
    match mapLookup m.connSet endpoint with
    | some oldConn => [oldConn]
    | none => []
  let connSet := mapInsert m.connSet endpoint cc
  let idx := dedupScan m.endpoints endpoint
  let endpoints :=
    if m.endpoints.length ≤ idx then m.endpoints ++ [endpoint] else m.endpoints
  ({ m with connSet := connSet, endpoints := sortStrings endpoints }, closes)

/-- `GetConn(endpoint)`: plain map read under `RLock`. -/
def GetConn (m : ConnManager) (endpoint : String) : Option Conn :=
  mapLookup m.connSet endpoint

/-- The scan loop of `FirstAvailableConn`: first endpoint of the slice whose
stored connection is non-`nil`. -/
def firstAvailAux (cs : ConnMap) : List String → Option Conn
  | [] => none
  | e :: rest =>
    match mapLookup cs e with
    | some cc => some cc
    | none => firstAvailAux cs rest

/-- `FirstAvailableConn()`: scan the endpoint slice in order; error
`"no available connection found"` when no endpoint has a live connection. -/
def FirstAvailableConn (m : ConnManager) : Except String Conn :=
  match firstAvailAux m.connSet m.endpoints with
  | some cc => .ok cc
  | none => .error "no available connection found"

/-- Signed wrap-around of `int32` arithmetic, modulo 2^32. -/
def wrap32 (z : Int) : Int := (z + 2 ^ 31) % 2 ^ 32 - 2 ^ 31

/-- Outcome of one `roundRobin()` probe: the pair `(cc, endpoint)` returned
by the Go method, or `crash` for the runtime panic raised by
`m.endpoints[i]` when the truncated Go `%` yields a negative index. -/
inductive RRStep where
  | value (cc : Option Conn) (endpoint : String)
  | crash
deriving DecidableEq, Repr

/-- `roundRobin()`: when the slice is non-empty, atomically increment the
`int32` cursor, index the slice at `cursor % int32(len)`, and return the
stored connection with the endpoint; when the slice is empty, return
`(nil, "")` without touching the cursor. -/
def roundRobin (m : ConnManager) : RRStep × ConnManager :=
  if m.endpoints.length > 0 then
    let newIdx := wrap32 (m.lastRoundRobinIdx + 1)
    let m1 := { m with lastRoundRobinIdx := newIdx }
    let i := Int.tmod newIdx (m.endpoints.length : Int)
    if 0 ≤ i then
      let endpoint := m.endpoints.getD i.toNat ""
      (.value (mapLookup m.connSet endpoint) endpoint, m1)
    else
      (.crash, m1)
  else
    (.value none "", m)

/-- Outcome of `RoundRobinConn()`: a connection, the
`"no available connection found"` error, the propagated index panic, or
`spin` when the modelling fuel ran out before the loop finished. -/
inductive ConnResult where
  | ok (cc : Conn)
  | noConn
  | crash
  | spin
deriving DecidableEq, Repr

/-- The `for` loop of `RoundRobinConn`, with `firstEndpoint` as loop state:
probe `roundRobin()`; empty endpoint means the slice was empty (error);
a non-`nil` connection is returned; otherwise remember the first endpoint
seen and stop with an error when it comes around again. -/
def rrLoop (m : ConnManager) (firstEndpoint : String) :
    Nat → ConnResult × ConnManager
  | 0 => (.spin, m)
  | fuel + 1 =>
    match roundRobin m with
    | (.crash, m1) => (.crash, m1)
    | (.value cc endpoint, m1) =>
      if endpoint = "" then (.noConn, m1)
      else
        match cc with
        | some c => (.ok c, m1)
        | none =>
          if firstEndpoint = "" then rrLoop m1 endpoint fuel
          else if firstEndpoint = endpoint then (.noConn, m1)
          else rrLoop m1 firstEndpoint fuel

/-- `RoundRobinConn()`: run the loop with `firstEndpoint` initially the
empty string. -/
def RoundRobinConn (m : ConnManager) (fuel : Nat) : ConnResult × ConnManager :=
  rrLoop m "" fuel

/-- `CloseAll()`: close every non-`nil` connection in the map; bookkeeping
(the map and the slice) is not cleared.  Returns the handles closed. -/
def CloseAll (m : ConnManager) : List Conn :=
  mapVals m.connSet

/-- State of a `haclient`: whether the `sync.Once` already fired, whether
the `context.CancelFunc` produced at construction has been invoked, and the
owned `clientConnManager`. -/
structure HAClientState where
  closed : Bool
  cancelled : Bool
  mgr : ConnManager
deriving DecidableEq, Repr

/-- A freshly constructed `haclient`: `sync.Once` unfired and the
cancellation context not yet cancelled. -/
def mkHAClient (mgr : ConnManager) : HAClientState :=
  { closed := false, cancelled := false, mgr := mgr }

/-- `Close()`: `once.Do(func() { c.availableConnManager.CloseAll() })`.
The body runs only on the first call; no path invokes `c.cancel`, so the
`cancelled` flag is never set.  Returns the handles closed by this call. -/
def Close (c : HAClientState) : HAClientState × List Conn :=
  if c.closed then (c, [])
  else ({ c with closed := true }, CloseAll c.mgr)

/-- One tick of the per-endpoint monitoring goroutine in `keepalive`.
`probe` is the caller-supplied `readinessProbeRPC` (its success on each
handle during this tick), `dialResult` the outcome of `c.dial(endpoint)`
(`none` = dial error).  If a connection is registered, probe it and clear
the entry on failure; otherwise dial, probe the fresh connection, close it
without registering on probe failure, and register it on success.
Returns the new registry state and the handles closed during the tick. -/
def keepaliveTick (probe : Conn → Bool) (dialResult : Option Conn)
    (endpoint : String) (m : ConnManager) : ConnManager × List Conn :=
  match GetConn m endpoint with
  | some cc =>
    if probe cc then (m, [])
    else ResetConn m endpoint none
  | none =>
    match dialResult with
    | none => (m, [])
    | some cc =>
      if probe cc then ResetConn m endpoint (some cc)
      else (m, [cc])

/-- Externally visible step of `newHAClient` construction. -/
inductive ConstructEvent where
  | startKeepalive
deriving DecidableEq, Repr

/-- The guard section of `newHAClient`, up to and including the
`go c.keepalive()` statement: empty endpoint list and unset
`readinessProbeRPC` fail synchronously, before the keepalive task is
started.  The subsequent startup polling loop (which needs the concurrent
world) is outside this model. -/
def newHAClient (endpoints : List String) (probeIsSet : Bool) :
    Except String Unit × List ConstructEvent :=
  if endpoints.length = 0 then (.error "no endpoints found", [])
  else if probeIsSet = false then (.error "readinessProbeRPC cannot be nil", [])
  else (.ok (), [.startKeepalive])

/-- The two construction error messages the specification groups under
`InvalidConfiguration`. -/
def isInvalidConfigurationMsg (msg : String) : Prop :=
  msg = "no endpoints found" ∨ msg = "readinessProbeRPC cannot be nil"

instance (msg : String) : Decidable (isInvalidConfigurationMsg msg) := by
  unfold isInvalidConfigurationMsg; infer_instance

/-- One `register` call of a trace: the endpoint together with the
registered connection (`none` = clearing the slot). -/
abbrev RegCall := String × Option Conn

/-- Run a sequence of `ResetConn` calls, collecting every handle closed
along the way. -/
def runTrace : List RegCall → ConnManager → ConnManager × List Conn
  | [], m => (m, [])
  | (e, cc) :: rest, m =>
    let step := ResetConn m e cc
    let next := runTrace rest step.1
    (next.1, step.2 ++ next.2)

/-- Claim-side definition, following the words of the specification: the most
recently registered value for `e` in the trace, or `none` if none was
registered. -/
def specLastRegistered (T : List RegCall) (e : String) : Option Conn :=
  (((T.filter (fun p => p.1 = e)).getLast?).map (fun p => p.2)).getD none

/-- A registry state with three endpoints, none live, and the int32
cursor at its maximum value (reachable: the cursor starts at `-1` and is
advanced, with int32 wrap-around, by every `roundRobin` probe). -/
def overflowMgr : ConnManager :=
  { connSet := [("a", none), ("b", none), ("c", none)],
    endpoints := ["a", "b", "c"],
    lastRoundRobinIdx := 2147483647 }

/-! ### Basic lemmas about the map and the duplicate scan -/

theorem mapLookup_mapInsert (cs : ConnMap) (e e' : String) (v : Option Conn) :
    mapLookup (mapInsert cs e v) e' = if e = e' then v else mapLookup cs e' := by
  induction cs with
  | nil => rfl
  | cons p rest ih =>
    obtain ⟨k, w⟩ := p
    by_cases hk : k = e <;> by_cases h : e = e' <;> by_cases hke : k = e' <;>
      simp_all [mapInsert, mapLookup]

theorem dedupScanGo_eq (e : String) :
    ∀ (l : List String) (idx : Nat), dedupScanGo e l idx = idx + l.length := by
  intro l
  induction l with
  | nil => intro idx; simp [dedupScanGo]
  | cons x rest ih =>
    intro idx
    by_cases h : x = e <;> simp [dedupScanGo, h, ih] <;> omega

theorem dedupScan_eq (l : List String) (e : String) :
    dedupScan l e = l.length := by
  simp [dedupScan, dedupScanGo_eq]

theorem ResetConn_fst (m : ConnManager) (e : String) (cc : Option Conn) :
    (ResetConn m e cc).1 =
      { connSet := mapInsert m.connSet e cc,
        endpoints := sortStrings (m.endpoints ++ [e]),
        lastRoundRobinIdx := m.lastRoundRobinIdx } := by
  simp [ResetConn, dedupScan_eq]

theorem ResetConn_snd (m : ConnManager) (e : String) (cc : Option Conn) :
    (ResetConn m e cc).2 = (mapLookup m.connSet e).toList := by
  cases h : mapLookup m.connSet e <;> simp [ResetConn, h]

/-! ### The Go string order: totality and transitivity -/

theorem charListLe_total : ∀ x y : List Char,
    charListLe x y = true ∨ charListLe y x = true := by
  intro x
  induction x with
  | nil => intro y; left; rfl
  | cons a as ih =>
    intro y
    cases y with
    | nil => right; rfl
    | cons b bs =>
      rcases Nat.lt_trichotomy a.toNat b.toNat with h | h | h
      · left; simp [charListLe, h]
      · rcases ih bs with h2 | h2
        · left; simp [charListLe, h, h2]
        · right; simp [charListLe, h.symm, h2]
      · right; simp [charListLe, h]

theorem charListLe_cons_elim {p q : Char} {ps qs : List Char}
    (h : charListLe (p :: ps) (q :: qs) = true) :
    p.toNat < q.toNat ∨ (p.toNat = q.toNat ∧ charListLe ps qs = true) := by
  simp only [charListLe] at h
  split_ifs at h with hpq hqp
  · exact Or.inl hpq
  · exact Or.inr ⟨by omega, h⟩

theorem charListLe_trans : ∀ x y z : List Char,
    charListLe x y = true → charListLe y z = true → charListLe x z = true := by
  intro x
  induction x with
  | nil => intro y z _ _; rfl
  | cons a as ih =>
    intro y z hxy hyz
    cases y with
    | nil => simp [charListLe] at hxy
    | cons b bs =>
      cases z with
      | nil => simp [charListLe] at hyz
      | cons c cs =>
        rcases charListLe_cons_elim hxy with hab | ⟨hab, h1⟩ <;>
          rcases charListLe_cons_elim hyz with hbc | ⟨hbc, h2⟩
        · simp [charListLe, show a.toNat < c.toNat by omega]
        · simp [charListLe, show a.toNat < c.toNat by omega]
        · simp [charListLe, show a.toNat < c.toNat by omega]
        · simp only [charListLe, show ¬a.toNat < c.toNat by omega,
            show ¬c.toNat < a.toNat by omega, if_false]
          exact ih bs cs h1 h2

instance : IsTotal String strLe :=
  ⟨fun a b => charListLe_total a.data b.data⟩

instance : IsTrans String strLe :=
  ⟨fun a b c => charListLe_trans a.data b.data c.data⟩

theorem sorted_sortStrings (l : List String) :
    List.Sorted strLe (sortStrings l) :=
  List.sorted_insertionSort strLe l

theorem mem_sortStrings {a : String} {l : List String} :
    a ∈ sortStrings l ↔ a ∈ l :=
  (List.perm_insertionSort strLe l).mem_iff

/-! ### Claim theorems -/

/-- C1: the claim fails on the code.  The duplicate scan in `ResetConn`
never leaves its loop on a match (`continue` just advances `idx`), so `idx`
always reaches `len(m.endpoints)` and the endpoint is appended on every
call: registering `"a"` twice from a fresh manager leaves the ordered
endpoint sequence `["a", "a"]`, a duplicate entry. -/
theorem resetConn_appends_duplicate_entry :
    (runTrace [("a", none), ("a", none)] newClientConnManager).1.endpoints
      = ["a", "a"] ∧
    dedupScan ["a"] "a" = 1 := by
  constructor
  · decide
  · decide

/-- C2: partially refuted.  `Close` is idempotent (the `sync.Once` body
runs only on the first call, the second call changes nothing and closes
nothing, so there is no double-close) and the first call closes every live
connection via `CloseAll`; but no call ever invokes the stored
`context.CancelFunc`, so the shared cancellation signal that the
monitoring goroutines select on is never raised — `cancelled` stays
exactly as it was, and is still `false` after closing a freshly
constructed client. -/
theorem close_idempotent_but_never_cancels :
    ∀ c : HAClientState,
      (Close (Close c).1).1 = (Close c).1 ∧
      (Close (Close c).1).2 = [] ∧
      ((Close c).1).cancelled = c.cancelled ∧
      ((Close (mkHAClient c.mgr)).1).cancelled = false ∧
      ∀ cn ∈ mapVals c.mgr.connSet, cn ∈ (Close (mkHAClient c.mgr)).2 := by
  intro c
  by_cases hc : c.closed <;>
    simp [Close, mkHAClient, CloseAll, hc]

/-- C2 witness: the statement applied to a concrete client holding one
live connection. -/
theorem close_idempotent_but_never_cancels_witness :
    (Close (Close (mkHAClient (runTrace [("a", some 3)]
        newClientConnManager).1)).1).2 = [] ∧
    ((Close (mkHAClient (runTrace [("a", some 3)]
        newClientConnManager).1)).1).cancelled = false := by
  refine ⟨?_, ?_⟩
  · exact (close_idempotent_but_never_cancels
      (mkHAClient (runTrace [("a", some 3)] newClientConnManager).1)).2.1
  · have h := (close_idempotent_but_never_cancels
      (mkHAClient (runTrace [("a", some 3)] newClientConnManager).1)).2.2.1
    simpa [mkHAClient] using h

/-- C3: the claim fails on the code.  After the reachable call sequence
`ResetConn("a", nil); ResetConn("a", nil); ResetConn("b", conn 0)` the
endpoint sequence is `["a", "a", "b"]` (duplicates from the broken scan,
see C1) and `"b"` holds a live connection, yet `RoundRobinConn` probes the
dead `"a"` twice in a row, sees its remembered first endpoint recur, and
returns the `no available connection found` error instead of the live
connection of `"b"` (fuel 10 > N+1 shows this is genuine termination with an
error, not exhausted fuel). -/
theorem roundRobinConn_spurious_error_with_live_conn :
    GetConn (runTrace [("a", none), ("a", none), ("b", some 0)]
        newClientConnManager).1 "b" = some 0 ∧
    (RoundRobinConn (runTrace [("a", none), ("a", none), ("b", some 0)]
        newClientConnManager).1 10).1 = .noConn := by
  constructor
  · decide
  · decide

/-- C4: the claim fails on the code.  After the reachable call sequence
`ResetConn("a", conn 0); ResetConn("a", conn 1); ResetConn("b", conn 2)`
the registry holds two endpoints, `"a"` (live conn 1) and `"b"` (live
conn 2), but the endpoint sequence is `["a", "a", "b"]`; starting from the
initial cursor, three consecutive `RoundRobinConn` calls yield the
connections of `"a"`, `"a"`, `"b"` — endpoint `"a"` twice and, in the
first two (= number of endpoints) calls, `"b"` never — so rotation does
not yield every endpoint exactly once. -/
theorem roundRobin_rotation_skewed_by_duplicates :
    GetConn (runTrace [("a", some 0), ("a", some 1), ("b", some 2)]
        newClientConnManager).1 "a" = some 1 ∧
    GetConn (runTrace [("a", some 0), ("a", some 1), ("b", some 2)]
        newClientConnManager).1 "b" = some 2 ∧
    (RoundRobinConn (runTrace [("a", some 0), ("a", some 1), ("b", some 2)]
        newClientConnManager).1 10).1 = .ok 1 ∧
    (RoundRobinConn (RoundRobinConn (runTrace [("a", some 0), ("a", some 1),
        ("b", some 2)] newClientConnManager).1 10).2 10).1 = .ok 1 ∧
    (RoundRobinConn (RoundRobinConn (RoundRobinConn (runTrace [("a", some 0),
        ("a", some 1), ("b", some 2)] newClientConnManager).1 10).2 10).2
        10).1 = .ok 2 := by
  refine ⟨by decide, by decide, by decide, by decide, by decide⟩

/-- C5 counterexample: registering the same handle twice makes a later
supersession close it twice.  In the trace
`register("a", conn 0); register("a", conn 0); register("a", conn 1)`
the value conn 0 is superseded and the close log is `[0, 0]`: handle 0 is
closed twice, not exactly once. -/
theorem superseded_conn_closed_twice :
    (runTrace [("a", some 0), ("a", some 0), ("a", some 1)]
        newClientConnManager).2 = [0, 0] ∧
    ((runTrace [("a", some 0), ("a", some 0), ("a", some 1)]
        newClientConnManager).2).count 0 = 2 := by
  refine ⟨by decide, by decide⟩

/-- C8 counterexample: with the int32 cursor at its maximum value
2147483647 (reachable, since the cursor starts at -1 and
`atomic.AddInt32` advances and wraps it on every probe) and three
endpoints none of which has a live connection, `RoundRobinConn` does not
fail with the `no available connection found` error: the increment wraps
to -2^31, the truncated Go `%` gives index -2, and indexing the endpoint
slice panics. -/
theorem roundRobinConn_crashes_at_cursor_overflow :
    (RoundRobinConn overflowMgr 10).1 = .crash ∧
    ∀ e ∈ overflowMgr.endpoints, mapLookup overflowMgr.connSet e = none := by
  refine ⟨by decide, by decide⟩

/-- C9: construction with an empty endpoint list or an unset
`readinessProbeRPC` fails synchronously with one of the two
`InvalidConfiguration` messages, and exactly in those cases — and the
event list of the failing construction is empty, i.e. the
`go c.keepalive()` monitoring task is never started before the failure
returns. -/
theorem newHAClient_invalid_configuration_iff :
    ∀ (endpoints : List String) (probeIsSet : Bool),
      (endpoints = [] ∨ probeIsSet = false) ↔
        ∃ msg, isInvalidConfigurationMsg msg ∧
          newHAClient endpoints probeIsSet = (.error msg, []) := by
  intro endpoints probeIsSet
  constructor
  · rintro (h | h)
    · subst h
      exact ⟨"no endpoints found", Or.inl rfl, by simp [newHAClient]⟩
    · subst h
      cases endpoints with
      | nil => exact ⟨"no endpoints found", Or.inl rfl, by simp [newHAClient]⟩
      | cons x xs =>
        exact ⟨"readinessProbeRPC cannot be nil", Or.inr rfl,
          by simp [newHAClient]⟩
  · rintro ⟨msg, _, h⟩
    cases endpoints with
    | nil => exact Or.inl rfl
    | cons x xs =>
      cases probeIsSet with
      | false => exact Or.inr rfl
      | true => simp [newHAClient] at h

theorem GetConn_ResetConn_self (m : ConnManager) (e : String)
    (cc : Option Conn) : GetConn (ResetConn m e cc).1 e = cc := by
  rw [ResetConn_fst]
  simp [GetConn, mapLookup_mapInsert]

/-- C7: after one tick of the monitoring task for `endpoint`, the
connection registered for `endpoint` (if any) passed its readiness probe
during this tick; a probe failure on an existing registered connection
clears the registry entry and closes exactly that handle; and a freshly
dialed connection whose immediate probe fails is closed and never
registered (the registry is left untouched). -/
theorem keepalive_tick_never_keeps_failed_conn :
    ∀ (probe : Conn → Bool) (dialResult : Option Conn) (endpoint : String)
      (m : ConnManager) (c : Conn),
      (GetConn (keepaliveTick probe dialResult endpoint m).1 endpoint = some c →
        probe c = true) ∧
      (GetConn m endpoint = some c → probe c = false →
        GetConn (keepaliveTick probe dialResult endpoint m).1 endpoint = none ∧
        (keepaliveTick probe dialResult endpoint m).2 = [c]) ∧
      (GetConn m endpoint = none → dialResult = some c → probe c = false →
        keepaliveTick probe dialResult endpoint m = (m, [c])) := by
  intro probe dialResult endpoint m c
  rcases hget : GetConn m endpoint with _ | cc
  · rcases hd : dialResult with _ | cc
    · -- no registered connection and the dial failed: nothing changes
      have h0 : keepaliveTick probe none endpoint m = (m, []) := by
        simp [keepaliveTick, hget]
      refine ⟨?_, ?_, ?_⟩
      · intro hsome
        rw [h0] at hsome
        rw [hget] at hsome
        exact Option.noConfusion hsome
      · simp
      · simp
    · rcases hp : probe cc with _ | _
      · -- fresh dial, probe failed: closed, not registered
        have h0 : keepaliveTick probe (some cc) endpoint m = (m, [cc]) := by
          simp [keepaliveTick, hget, hp]
        refine ⟨?_, ?_, ?_⟩
        · intro hsome
          rw [h0] at hsome
          rw [hget] at hsome
          exact Option.noConfusion hsome
        · simp
        · intro _ hdc _
          obtain rfl : cc = c := by injection hdc
          exact h0
      · -- fresh dial, probe passed: registered
        have h0 : keepaliveTick probe (some cc) endpoint m
            = ResetConn m endpoint (some cc) := by
          simp [keepaliveTick, hget, hp]
        refine ⟨?_, ?_, ?_⟩
        · intro hsome
          rw [h0, GetConn_ResetConn_self] at hsome
          obtain rfl : cc = c := by injection hsome
          exact hp
        · simp
        · intro _ hdc hpc
          obtain rfl : cc = c := by injection hdc
          rw [hp] at hpc
          exact Bool.noConfusion hpc
  · rcases hp : probe cc with _ | _
    · -- registered connection failed its probe: cleared and closed
      have h0 : keepaliveTick probe dialResult endpoint m
          = ResetConn m endpoint none := by
        simp [keepaliveTick, hget, hp]
      refine ⟨?_, ?_, ?_⟩
      · intro hsome
        rw [h0, GetConn_ResetConn_self] at hsome
        exact Option.noConfusion hsome
      · intro hsome2 _
        obtain rfl : cc = c := by injection hsome2
        refine ⟨by rw [h0, GetConn_ResetConn_self], ?_⟩
        rw [h0, ResetConn_snd]
        simp only [GetConn] at hget
        rw [hget]
        rfl
      · intro hnone
        exact Option.noConfusion hnone
    · -- registered connection passed its probe: unchanged
      have h0 : keepaliveTick probe dialResult endpoint m = (m, []) := by
        simp [keepaliveTick, hget, hp]
      refine ⟨?_, ?_, ?_⟩
      · intro hsome
        rw [h0] at hsome
        rw [hget] at hsome
        obtain rfl : cc = c := by injection hsome
        exact hp
      · intro hsome2 hpc
        obtain rfl : cc = c := by injection hsome2
        rw [hp] at hpc
        exact Bool.noConfusion hpc
      · intro hnone
        exact Option.noConfusion hnone

/-- C7 witness: the theorem applied to a concrete registry holding a live
connection 7 for endpoint `"a"`, with an always-failing probe: the tick
clears and closes 7; and for endpoint `"b"` (no connection) with a fresh
dial result 9 whose probe fails: the tick closes 9 and leaves the
registry untouched. -/
theorem keepalive_tick_never_keeps_failed_conn_witness :
    GetConn (keepaliveTick (fun _ => false) none "a"
        (runTrace [("a", some 7)] newClientConnManager).1).1 "a" = none ∧
    (keepaliveTick (fun _ => false) none "a"
        (runTrace [("a", some 7)] newClientConnManager).1).2 = [7] ∧
    keepaliveTick (fun _ => false) (some 9) "b"
        (runTrace [("a", some 7)] newClientConnManager).1 =
      ((runTrace [("a", some 7)] newClientConnManager).1, [9]) := by
  refine ⟨?_, ?_, ?_⟩
  · exact ((keepalive_tick_never_keeps_failed_conn (fun _ => false) none "a"
      (runTrace [("a", some 7)] newClientConnManager).1 7).2.1
      (by decide) rfl).1
  · exact ((keepalive_tick_never_keeps_failed_conn (fun _ => false) none "a"
      (runTrace [("a", some 7)] newClientConnManager).1 7).2.1
      (by decide) rfl).2
  · exact (keepalive_tick_never_keeps_failed_conn (fun _ => false) (some 9) "b"
      (runTrace [("a", some 7)] newClientConnManager).1 9).2.2
      (by decide) rfl rfl

theorem strLe_refl (a : String) : strLe a a :=
  (charListLe_total a.data a.data).elim id id

theorem runTrace_cons_fst (e : String) (cc : Option Conn) (T : List RegCall)
    (m : ConnManager) :
    (runTrace ((e, cc) :: T) m).1 = (runTrace T (ResetConn m e cc).1).1 := rfl

theorem runTrace_cons_snd (e : String) (cc : Option Conn) (T : List RegCall)
    (m : ConnManager) :
    (runTrace ((e, cc) :: T) m).2
      = (ResetConn m e cc).2 ++ (runTrace T (ResetConn m e cc).1).2 := rfl

/-- Reachability invariant of the registry: the endpoint sequence is
sorted in the Go string order, and every endpoint whose map entry is
non-`nil` occurs in the sequence. -/
theorem runTrace_inv : ∀ (T : List RegCall) (m : ConnManager),
    List.Sorted strLe m.endpoints →
    (∀ e, (GetConn m e).isSome → e ∈ m.endpoints) →
    List.Sorted strLe (runTrace T m).1.endpoints ∧
    (∀ e, (GetConn (runTrace T m).1 e).isSome → e ∈ (runTrace T m).1.endpoints) := by
  intro T
  induction T with
  | nil => intro m h1 h2; exact ⟨h1, h2⟩
  | cons p rest ih =>
    obtain ⟨e, cc⟩ := p
    intro m h1 h2
    rw [runTrace_cons_fst]
    apply ih
    · rw [ResetConn_fst]
      exact sorted_sortStrings _
    · intro e2 hsome
      rw [ResetConn_fst] at hsome ⊢
      simp only [GetConn, mapLookup_mapInsert] at hsome
      simp only [mem_sortStrings, List.mem_append, List.mem_singleton]
      by_cases he : e = e2
      · exact Or.inr he.symm
      · rw [if_neg he] at hsome
        exact Or.inl (h2 e2 hsome)

/-- Scanning a sorted endpoint list returns the connection of the least
endpoint in the list that has one. -/
theorem firstAvailAux_min (cs : ConnMap) :
    ∀ l : List String, List.Sorted strLe l →
      (∃ e ∈ l, (mapLookup cs e).isSome) →
      ∃ e0 c, mapLookup cs e0 = some c ∧ e0 ∈ l ∧
        (∀ e2 ∈ l, (mapLookup cs e2).isSome → strLe e0 e2) ∧
        firstAvailAux cs l = some c := by
  intro l
  induction l with
  | nil => rintro _ ⟨e, he, _⟩; exact absurd he (List.not_mem_nil e)
  | cons x rest ih =>
    intro hs hex
    rcases hx : mapLookup cs x with _ | c
    · obtain ⟨e, he, hesome⟩ := hex
      have herest : e ∈ rest := by
        rcases List.mem_cons.1 he with rfl | h
        · rw [hx] at hesome; exact absurd hesome (by simp)
        · exact h
      obtain ⟨e0, c, h1, hmem, hmin, heq⟩ :=
        ih (List.sorted_cons.1 hs).2 ⟨e, herest, hesome⟩
      refine ⟨e0, c, h1, List.mem_cons_of_mem _ hmem, ?_, ?_⟩
      · intro e2 he2 he2some
        rcases List.mem_cons.1 he2 with rfl | h
        · rw [hx] at he2some; exact absurd he2some (by simp)
        · exact hmin e2 h he2some
      · simp only [firstAvailAux, hx]
        exact heq
    · refine ⟨x, c, hx, List.mem_cons_self x rest, ?_, ?_⟩
      · intro e2 he2 _
        rcases List.mem_cons.1 he2 with rfl | h
        · exact strLe_refl e2
        · exact (List.sorted_cons.1 hs).1 e2 h
      · simp only [firstAvailAux, hx]

/-- C6: for every reachable registry state with at least one live
connection, `FirstAvailableConn` returns the connection of the least
endpoint — in the Go lexicographic string order `strLe`, the order used by
`sort.Strings` — among all endpoints that currently have a live
connection.  (The hypothesis quantifies over the endpoint sequence, the
conclusion over arbitrary strings: by the registry invariant every live
endpoint occurs in the sequence.) -/
theorem firstAvailable_returns_min_live :
    ∀ T : List RegCall,
      (∃ e ∈ (runTrace T newClientConnManager).1.endpoints,
        (GetConn (runTrace T newClientConnManager).1 e).isSome) →
      ∃ e0 c,
        GetConn (runTrace T newClientConnManager).1 e0 = some c ∧
        (∀ e2 : String,
          (GetConn (runTrace T newClientConnManager).1 e2).isSome →
            strLe e0 e2) ∧
        FirstAvailableConn (runTrace T newClientConnManager).1 = .ok c := by
  intro T hex
  have hinv := runTrace_inv T newClientConnManager
    (by simp [newClientConnManager])
    (by intro e h; simp [newClientConnManager, GetConn, mapLookup] at h)
  obtain ⟨e0, c, h1, _, hmin, heq⟩ :=
    firstAvailAux_min (runTrace T newClientConnManager).1.connSet
      (runTrace T newClientConnManager).1.endpoints hinv.1 hex
  refine ⟨e0, c, h1, ?_, ?_⟩
  · intro e2 h2some
    exact hmin e2 (hinv.2 e2 h2some) h2some
  · simp only [FirstAvailableConn, heq]

/-- C6 witness: after registering a live connection 0 for endpoint `"b"`,
the hypothesis holds and `FirstAvailableConn` returns that connection of
the least live endpoint. -/
theorem firstAvailable_returns_min_live_witness :
    (∃ e ∈ (runTrace [("b", some 0)] newClientConnManager).1.endpoints,
      (GetConn (runTrace [("b", some 0)] newClientConnManager).1 e).isSome) ∧
    ∃ e0 c,
      GetConn (runTrace [("b", some 0)] newClientConnManager).1 e0 = some c ∧
      (∀ e2 : String,
        (GetConn (runTrace [("b", some 0)] newClientConnManager).1 e2).isSome →
          strLe e0 e2) ∧
      FirstAvailableConn (runTrace [("b", some 0)] newClientConnManager).1
        = .ok c :=
  ⟨by decide, firstAvailable_returns_min_live [("b", some 0)] (by decide)⟩

theorem mapVals_cons (k : String) (w : Option Conn) (rest : ConnMap) :
    mapVals ((k, w) :: rest) = w.toList ++ mapVals rest := by
  cases w <;> simp [mapVals, List.filterMap_cons]

/-- Inserting at key `e` replaces, in the list of live values, exactly the
(possibly empty) contribution of the previous value at `e` by that of the
new value, leaving the surrounding values untouched. -/
theorem mapVals_mapInsert (cs : ConnMap) (e : String) (v : Option Conn) :
    ∃ A B, mapVals cs = A ++ (mapLookup cs e).toList ++ B ∧
      mapVals (mapInsert cs e v) = A ++ v.toList ++ B := by
  induction cs with
  | nil =>
    refine ⟨[], [], by simp [mapVals, mapLookup], ?_⟩
    simp only [mapInsert, mapVals_cons]
    simp [mapVals]
  | cons p rest ih =>
    obtain ⟨k, w⟩ := p
    by_cases hk : k = e
    · subst hk
      refine ⟨[], mapVals rest, ?_, ?_⟩
      · simp [mapVals_cons, mapLookup]
      · simp [mapInsert, mapVals_cons]
    · obtain ⟨A, B, h1, h2⟩ := ih
      refine ⟨w.toList ++ A, B, ?_, ?_⟩
      · simp only [mapVals_cons, mapLookup, if_neg hk, h1, List.append_assoc]
      · simp only [mapInsert, if_neg hk, mapVals_cons, h2, List.append_assoc]

/-- `GetConn` after a trace of `ResetConn` calls is the payload of the
last call of the trace for that endpoint, falling back to the entry of
the initial state. -/
theorem runTrace_GetConn :
    ∀ (T : List RegCall) (m : ConnManager) (e : String),
      GetConn (runTrace T m).1 e
        = (((T.filter (fun p => p.1 = e)).getLast?).map
            (fun p => p.2)).getD (GetConn m e) := by
  intro T
  induction T with
  | nil => intro m e; simp [runTrace]
  | cons p rest ih =>
    obtain ⟨e1, cc⟩ := p
    intro m e
    rw [runTrace_cons_fst, ih]
    have hg : GetConn (ResetConn m e1 cc).1 e
        = if e1 = e then cc else GetConn m e := by
      rw [ResetConn_fst]
      simp [GetConn, mapLookup_mapInsert]
    rw [hg]
    by_cases he : e1 = e
    · subst he
      simp only [List.filter_cons, decide_eq_true_eq, if_pos rfl, if_true]
      cases hF : rest.filter (fun p => p.1 = e1) with
      | nil => simp [hF]
      | cons q qs =>
        rcases hq : (q :: qs).getLast? with _ | x
        · exact absurd (List.getLast?_eq_none_iff.1 hq) (by simp)
        · simp [hF, List.getLast?_cons_cons, hq]
    · simp [List.filter_cons, he]

/-- Core bookkeeping invariant for the close log: starting from a state
whose already-closed handles `acc` and currently live values are jointly
duplicate-free and disjoint from the handles still to be registered, a
trace with duplicate-free payloads keeps the closed handles and the
finally live values jointly duplicate-free. -/
theorem runTrace_closes_nodup_aux :
    ∀ (T : List RegCall) (m : ConnManager) (acc : List Conn),
      (acc ++ mapVals m.connSet).Nodup →
      (T.filterMap (fun p => p.2)).Nodup →
      (∀ x ∈ acc ++ mapVals m.connSet, x ∉ T.filterMap (fun p => p.2)) →
      ((acc ++ (runTrace T m).2) ++ mapVals (runTrace T m).1.connSet).Nodup := by
  intro T
  induction T with
  | nil =>
    intro m acc h1 _ _
    simpa [runTrace] using h1
  | cons p rest ih =>
    obtain ⟨e, cc⟩ := p
    intro m acc h1 h2 h3
    rw [runTrace_cons_fst, runTrace_cons_snd]
    obtain ⟨A, B, hAB, hAB2⟩ := mapVals_mapInsert m.connSet e cc
    have hvals : mapVals (ResetConn m e cc).1.connSet = A ++ cc.toList ++ B := by
      rw [ResetConn_fst]
      exact hAB2
    have hcloses : (ResetConn m e cc).2 = (mapLookup m.connSet e).toList :=
      ResetConn_snd m e cc
    -- the handles retired or still live after the head call are, as a
    -- multiset, the old ones plus the head payload
    have hperm : List.Perm
        ((acc ++ (ResetConn m e cc).2) ++ mapVals (ResetConn m e cc).1.connSet)
        ((acc ++ mapVals m.connSet) ++ cc.toList) := by
      rw [hvals, hcloses, hAB]
      apply List.perm_iff_count.2
      intro a
      simp only [List.count_append]
      omega
    have hpayload : ((e, cc) :: rest).filterMap (fun p => p.2)
        = cc.toList ++ rest.filterMap (fun p => p.2) := by
      cases cc <;> simp [List.filterMap_cons]
    have hdisj : ∀ x ∈ (acc ++ (ResetConn m e cc).2) ++
        mapVals (ResetConn m e cc).1.connSet,
        x ∉ rest.filterMap (fun p => p.2) := by
      intro x hx
      rcases (List.mem_append.1 (hperm.mem_iff.1 hx)) with hx1 | hx2
      · have := h3 x hx1
        rw [hpayload] at this
        intro hmem
        exact this (List.mem_append.2 (Or.inr hmem))
      · rw [hpayload] at h2
        exact fun hmem =>
          (List.disjoint_of_nodup_append h2) hx2 hmem
    have h1' : ((acc ++ (ResetConn m e cc).2) ++
        mapVals (ResetConn m e cc).1.connSet).Nodup := by
      refine hperm.nodup_iff.2 ?_
      refine List.Nodup.append h1 ?_ ?_
      · cases cc <;> simp
      · intro x hx1 hx2
        have := h3 x hx1
        rw [hpayload] at this
        exact this (List.mem_append.2 (Or.inl hx2))
    have h2' : (rest.filterMap (fun p => p.2)).Nodup := by
      rw [hpayload] at h2
      exact h2.of_append_right
    have hres := ih (ResetConn m e cc).1 (acc ++ (ResetConn m e cc).2)
      h1' h2' hdisj
    simpa [List.append_assoc] using hres

/-- C5 (amended): provided every non-`nil` handle occurs at most once as
a payload of the trace (fresh handles, as produced by a fresh dial for
every registration), `GetConn e` returns the most recently registered
value for `e` (or `none`), and the close log is duplicate-free: every
handle a later call superseded was closed exactly once — inside
`ResetConn`, `oldConn.Close()` is sequenced before the map store, so each
such close happens before the new value is installed.  The get-part needs
no freshness; the exactly-once part fails without it (see the
counterexample). -/
theorem register_get_and_close_once :
    ∀ T : List RegCall,
      (T.filterMap (fun p => p.2)).Nodup →
      (∀ e : String, GetConn (runTrace T newClientConnManager).1 e
          = specLastRegistered T e) ∧
      (runTrace T newClientConnManager).2.Nodup ∧
      (∀ c : Conn, c ∈ (runTrace T newClientConnManager).2 →
        (runTrace T newClientConnManager).2.count c = 1) := by
  intro T hfresh
  have hlog : (runTrace T newClientConnManager).2.Nodup := by
    have h := runTrace_closes_nodup_aux T newClientConnManager []
      (by simp [newClientConnManager, mapVals])
      hfresh
      (by simp [newClientConnManager, mapVals])
    simp only [List.nil_append] at h
    exact h.of_append_left
  refine ⟨?_, hlog, ?_⟩
  · intro e
    rw [runTrace_GetConn]
    simp [specLastRegistered, newClientConnManager, GetConn, mapLookup]
  · intro c hc
    exact List.count_eq_one_of_mem hlog hc

/-- C5 witness: the amended statement applied to the fresh-handle trace
`register("a", conn 0); register("a", conn 1)`: handle 0 is superseded
and the close log is exactly `[0]`. -/
theorem register_get_and_close_once_witness :
    (([("a", some 0), ("a", some 1)] : List RegCall).filterMap
        (fun p => p.2)).Nodup ∧
    (runTrace [("a", some 0), ("a", some 1)] newClientConnManager).2.Nodup ∧
    (runTrace [("a", some 0), ("a", some 1)] newClientConnManager).2 = [0] :=
  ⟨by decide,
   (register_get_and_close_once [("a", some 0), ("a", some 1)]
     (by decide)).2.1,
   by decide⟩

theorem wrap32_eq_self {z : Int} (h1 : -(2 ^ 31) ≤ z) (h2 : z < 2 ^ 31) :
    wrap32 z = z := by
  unfold wrap32
  rw [Int.emod_eq_of_lt (by omega) (by omega)]
  omega

/-- One `roundRobin` probe in the overflow-free cursor range: the cursor
becomes `cursor + 1` and the endpoint at list position
`(cursor + 1) mod N` is selected. -/
theorem roundRobin_safe (m : ConnManager) (hne : m.endpoints ≠ [])
    (hlo : 0 ≤ m.lastRoundRobinIdx + 1)
    (hhi : m.lastRoundRobinIdx + 1 < 2 ^ 31) :
    roundRobin m =
      (.value
        (mapLookup m.connSet (m.endpoints.getD
          (((m.lastRoundRobinIdx + 1) % (m.endpoints.length : Int)).toNat) ""))
        (m.endpoints.getD
          (((m.lastRoundRobinIdx + 1) % (m.endpoints.length : Int)).toNat) ""),
       { m with lastRoundRobinIdx := m.lastRoundRobinIdx + 1 }) := by
  have hlen : 0 < m.endpoints.length := List.length_pos.2 hne
  have hlen' : (0 : Int) < (m.endpoints.length : Int) := by exact_mod_cast hlen
  have hw : wrap32 (m.lastRoundRobinIdx + 1) = m.lastRoundRobinIdx + 1 :=
    wrap32_eq_self (by omega) hhi
  have htm : Int.tmod (m.lastRoundRobinIdx + 1) (m.endpoints.length : Int)
      = (m.lastRoundRobinIdx + 1) % (m.endpoints.length : Int) :=
    Int.tmod_eq_emod hlo (by omega)
  have hnn : 0 ≤ (m.lastRoundRobinIdx + 1) % (m.endpoints.length : Int) :=
    Int.emod_nonneg _ (by omega)
  simp only [roundRobin, hw, htm]
  rw [if_pos hlen, if_pos hnn]

/-- One-step unfolding of the `RoundRobinConn` loop, keeping the
recursive occurrences folded. -/
theorem rrLoop_succ (m : ConnManager) (first : String) (f : Nat) :
    rrLoop m first (f + 1) =
      match roundRobin m with
      | (.crash, m1) => (.crash, m1)
      | (.value cc endpoint, m1) =>
        if endpoint = "" then (.noConn, m1)
        else
          match cc with
          | some c => (.ok c, m1)
          | none =>
            if first = "" then rrLoop m1 endpoint f
            else if first = endpoint then (.noConn, m1)
            else rrLoop m1 first f := rfl

/-- Index of the endpoint examined by the probe that a state with cursor
`i` performs after `k` further probes. -/
theorem probeIdx_bounds {i : Int} (len : Nat) (hlen : 0 < len)
    (_hlo : 0 ≤ i) : 0 ≤ i % (len : Int) ∧ (i % (len : Int)).toNat < len := by
  have h1 : 0 ≤ i % (len : Int) := Int.emod_nonneg _ (by omega)
  have h2 : i % (len : Int) < (len : Int) := Int.emod_lt_of_pos _ (by omega)
  omega

/-- The `RoundRobinConn` loop on a registry with no live connection among
its endpoints: once a non-empty `firstEndpoint` is remembered and its list
position is due to come around within the remaining fuel, the loop stops
with the `no available connection found` error. -/
theorem rrLoop_all_dead :
    ∀ (fuel : Nat) (m : ConnManager) (first : String),
      m.endpoints ≠ [] →
      (∀ e ∈ m.endpoints, mapLookup m.connSet e = none) →
      -1 ≤ m.lastRoundRobinIdx →
      m.lastRoundRobinIdx + fuel < 2 ^ 31 →
      first ≠ "" →
      (∃ k : Nat, k < fuel ∧
        m.endpoints.getD
          (((m.lastRoundRobinIdx + 1 + k) % (m.endpoints.length : Int)).toNat)
          "" = first) →
      (rrLoop m first fuel).1 = .noConn := by
  intro fuel
  induction fuel with
  | zero =>
    rintro m first _ _ _ _ _ ⟨k, hk, _⟩
    omega
  | succ f ih =>
    rintro m first hne hdead hlo hhi hfirst ⟨k, hk, hke⟩
    have hlen : 0 < m.endpoints.length := List.length_pos.2 hne
    have hrr := roundRobin_safe m hne (by omega) (by omega)
    have hbounds := probeIdx_bounds (i := m.lastRoundRobinIdx + 1)
      m.endpoints.length hlen (by omega)
    have hmem : m.endpoints.getD
        (((m.lastRoundRobinIdx + 1) % (m.endpoints.length : Int)).toNat) ""
        ∈ m.endpoints := by
      rw [List.getD_eq_getElem _ _ hbounds.2]
      exact List.getElem_mem _
    rw [rrLoop_succ, hrr]
    dsimp only
    rw [hdead _ hmem]
    by_cases he1 : m.endpoints.getD
        (((m.lastRoundRobinIdx + 1) % (m.endpoints.length : Int)).toNat) "" = ""
    · rw [if_pos he1]
    · rw [if_neg he1]
      dsimp only
      rw [if_neg hfirst]
      by_cases hfe : first = m.endpoints.getD
          (((m.lastRoundRobinIdx + 1) % (m.endpoints.length : Int)).toNat) ""
      · rw [if_pos hfe]
      · rw [if_neg hfe]
        have hk0 : k ≠ 0 := by
          intro h0
          subst h0
          rw [show m.lastRoundRobinIdx + 1 + ((0 : Nat) : Int)
              = m.lastRoundRobinIdx + 1 by push_cast; ring] at hke
          exact hfe hke.symm
        apply ih
        · exact hne
        · exact hdead
        · simp only []
          omega
        · simp only []
          push_cast
          omega
        · exact hfirst
        · refine ⟨k - 1, by omega, ?_⟩
          have hidx : ({ m with lastRoundRobinIdx :=
              m.lastRoundRobinIdx + 1 } : ConnManager).lastRoundRobinIdx + 1
              + ((k - 1 : Nat) : Int)
              = m.lastRoundRobinIdx + 1 + (k : Int) := by
            simp only []
            omega
          rw [hidx]
          exact hke

theorem firstAvailAux_none (cs : ConnMap) :
    ∀ l : List String, (∀ e ∈ l, mapLookup cs e = none) →
      firstAvailAux cs l = none := by
  intro l
  induction l with
  | nil => intro _; rfl
  | cons x rest ih =>
    intro h
    simp only [firstAvailAux, h x (List.mem_cons_self x rest)]
    exact ih (fun e he => h e (List.mem_cons_of_mem x he))

/-- C8 (amended): for every registry in which no endpoint of the sequence
has a live connection, and whose int32 cursor is in the overflow-free
range (at least the initial -1, with room for N+1 further increments
below 2^31 — every cursor value the registry can reach without crossing
the int32 overflow, see the counterexample for the excluded values),
`FirstAvailableConn` fails with the `no available connection found` error
and `RoundRobinConn` terminates with the same error within at most
N+1 probes (fuel N+1 suffices); in particular `RoundRobinConn` also fails
this way when the endpoint sequence is empty (first probe returns the
empty endpoint). -/
theorem no_live_conns_error :
    ∀ m : ConnManager,
      (∀ e ∈ m.endpoints, mapLookup m.connSet e = none) →
      -1 ≤ m.lastRoundRobinIdx →
      m.lastRoundRobinIdx + m.endpoints.length + 1 < 2 ^ 31 →
      FirstAvailableConn m = .error "no available connection found" ∧
      (RoundRobinConn m (m.endpoints.length + 1)).1 = .noConn := by
  intro m hdead hlo hhi
  refine ⟨?_, ?_⟩
  · simp [FirstAvailableConn, firstAvailAux_none m.connSet m.endpoints hdead]
  · by_cases hne : m.endpoints = []
    · simp [RoundRobinConn, rrLoop, roundRobin, hne]
    · have hlen : 0 < m.endpoints.length := List.length_pos.2 hne
      have hrr := roundRobin_safe m hne (by omega) (by omega)
      have hbounds := probeIdx_bounds (i := m.lastRoundRobinIdx + 1)
        m.endpoints.length hlen (by omega)
      have hmem : m.endpoints.getD
          (((m.lastRoundRobinIdx + 1) % (m.endpoints.length : Int)).toNat) ""
          ∈ m.endpoints := by
        rw [List.getD_eq_getElem _ _ hbounds.2]
        exact List.getElem_mem _
      have hfuel : m.endpoints.length + 1 = (m.endpoints.length - 1) + 1 + 1 := by
        omega
      rw [RoundRobinConn, hfuel, rrLoop_succ, hrr]
      dsimp only
      rw [hdead _ hmem]
      by_cases he1 : m.endpoints.getD
          (((m.lastRoundRobinIdx + 1) % (m.endpoints.length : Int)).toNat) "" = ""
      · rw [if_pos he1]
      · rw [if_neg he1]
        dsimp only
        rw [if_pos rfl]
        apply rrLoop_all_dead
        · exact hne
        · exact hdead
        · simp only []
          omega
        · simp only []
          push_cast
          omega
        · exact he1
        · refine ⟨m.endpoints.length - 1, by omega, ?_⟩
          have hidx : ({ m with lastRoundRobinIdx :=
              m.lastRoundRobinIdx + 1 } : ConnManager).lastRoundRobinIdx + 1
              + ((m.endpoints.length - 1 : Nat) : Int)
              = (m.lastRoundRobinIdx + 1) + 1 * (m.endpoints.length : Int) := by
            simp only []
            omega
          rw [hidx, Int.add_mul_emod_self]

/-- C8 witness for the amended statement: a reachable registry with two
dead endpoints at the initial cursor. -/
theorem no_live_conns_error_witness :
    (∀ e ∈ (runTrace [("a", none), ("b", none)]
        newClientConnManager).1.endpoints,
      mapLookup (runTrace [("a", none), ("b", none)]
        newClientConnManager).1.connSet e = none) ∧
    FirstAvailableConn (runTrace [("a", none), ("b", none)]
        newClientConnManager).1 = .error "no available connection found" ∧
    (RoundRobinConn (runTrace [("a", none), ("b", none)]
        newClientConnManager).1
      ((runTrace [("a", none), ("b", none)]
        newClientConnManager).1.endpoints.length + 1)).1 = .noConn := by
  refine ⟨by decide, ?_, ?_⟩
  · exact (no_live_conns_error (runTrace [("a", none), ("b", none)]
      newClientConnManager).1 (by decide) (by decide) (by decide)).1
  · exact (no_live_conns_error (runTrace [("a", none), ("b", none)]
      newClientConnManager).1 (by decide) (by decide) (by decide)).2

/-- C10: frame conditions of the selection operations.  `GetConn` reads
only the connection map and `FirstAvailableConn` only the map and the
endpoint sequence — both are pure functions of the state (the Go methods
take only the read lock), and in particular neither depends on the
cursor.  A `roundRobin` probe keeps the map and the endpoint sequence
unchanged and — including on the panicking path, where the atomic
increment has already happened — replaces the cursor by
`wrap32 (cursor + 1)` exactly when the endpoint sequence is non-empty;
when it is empty the probe returns `(nil, "")` with the whole state, even
the cursor, unchanged. -/
theorem selection_frame_conditions :
    ∀ (cs : ConnMap) (l : List String) (i j : Int) (e : String),
      GetConn ⟨cs, l, i⟩ e = GetConn ⟨cs, l, j⟩ e ∧
      FirstAvailableConn ⟨cs, l, i⟩ = FirstAvailableConn ⟨cs, l, j⟩ ∧
      (roundRobin ⟨cs, l, i⟩).2 =
        ⟨cs, l, if l.isEmpty then i else wrap32 (i + 1)⟩ ∧
      roundRobin ⟨cs, [], i⟩ = (.value none "", ⟨cs, [], i⟩) := by
  intro cs l i j e
  refine ⟨rfl, rfl, ?_, by simp [roundRobin]⟩
  cases l with
  | nil => simp [roundRobin]
  | cons x xs =>
    simp only [roundRobin, List.length_cons, List.isEmpty_cons]
    split <;> split <;> first | (simp; done) | omega

end GrpcHaclient
